import Mathlib

/-!
Shallow embedding of the headline acquisition and rotation engine of
`inhaiku.lt` (`app.js`, `api/news.js`), together with theorems settling the
behavioural claims of the specification.  JavaScript `Map`s are modelled as
insertion-ordered association lists, `Date.now()` as an explicit `Nat`
argument, network and randomness effects as oracle functions, and thrown
exceptions as `Except` values.
-/

set_option autoImplicit false

namespace Inhaiku

/-! ### Association lists modelling JavaScript `Map` -/

/-- An insertion-ordered key/value store, the model of a JS `Map`. -/
abbrev AList (V : Type) := List (String × V)

/-- `Map.get`: the value stored at `k`, if any. -/
def alookup {V : Type} : AList V → String → Option V
  | [], _ => none
  | (k, v) :: rest, key => if k = key then some v else alookup rest key

/-- `Map.set`: update the entry for `k` in place if present, else append. -/
def aset {V : Type} : AList V → String → V → AList V
  | [], key, v => [(key, v)]
  | (k, w) :: rest, key, v =>
      if k = key then (k, v) :: rest else (k, w) :: aset rest key v

/-- `Map.delete`: remove the entry for `k`, if present. -/
def aerase {V : Type} : AList V → String → AList V
  | [], _ => []
  | (k, w) :: rest, key => if k = key then rest else (k, w) :: aerase rest key

theorem alookup_aset_self {V : Type} (m : AList V) (k : String) (v : V) :
    alookup (aset m k v) k = some v := by
  induction m with
  | nil => simp [aset, alookup]
  | cons hd tl ih =>
      obtain ⟨k0, v0⟩ := hd
      by_cases h : k0 = k <;> simp [aset, alookup, h, ih]

theorem alookup_eq_none_of_not_mem {V : Type} (m : AList V) (k : String)
    (h : k ∉ m.map Prod.fst) : alookup m k = none := by
  induction m with
  | nil => simp [alookup]
  | cons hd tl ih =>
      obtain ⟨k0, v0⟩ := hd
      simp only [List.map_cons, List.mem_cons, not_or] at h
      have hne : k0 ≠ k := fun hc => h.1 hc.symm
      simp [alookup, hne, ih h.2]

theorem alookup_aerase_self {V : Type} (m : AList V) (k : String)
    (hm : (m.map Prod.fst).Nodup) : alookup (aerase m k) k = none := by
  induction m with
  | nil => simp [aerase, alookup]
  | cons hd tl ih =>
      obtain ⟨k0, v0⟩ := hd
      simp only [List.map_cons, List.nodup_cons] at hm
      by_cases h : k0 = k
      · subst h
        simp only [aerase, if_pos rfl]
        exact alookup_eq_none_of_not_mem tl k0 hm.1
      · simp [aerase, alookup, h, ih hm.2]

/-! ### `Cache` (`app.js` lines 19–57): TTL cache with lazy expiry -/

/-- A stored cache entry: `{ timestamp: Date.now(), data: value }`. -/
structure CacheItem (V : Type) where
  timestamp : Nat
  data : V
  deriving DecidableEq, Repr

/-- The `Cache` class: a `Map` keyed store with a per-cache `maxAge`. -/
structure Cache (V : Type) where
  store : AList (CacheItem V)
  maxAge : Nat
  deriving DecidableEq, Repr

/-- `Cache.set(key, value)`, with `Date.now()` passed as `now`. -/
def Cache.set {V : Type} (c : Cache V) (key : String) (value : V) (now : Nat) :
    Cache V :=
  { c with store := aset c.store key ⟨now, value⟩ }

/-- `Cache.get(key)` at time `now`: a present entry older than `maxAge`
(strictly, `now - timestamp > maxAge`) is deleted and reported as a miss;
otherwise its data is returned.  Returns the updated cache and the result. -/
def Cache.get {V : Type} (c : Cache V) (key : String) (now : Nat) :
    Cache V × Option V :=
  match alookup c.store key with
  | none => (c, none)
  | some item =>
      if now - item.timestamp > c.maxAge then
        ({ c with store := aerase c.store key }, none)
      else
        (c, some item.data)

/-- `Cache.clear()`. -/
def Cache.clear {V : Type} (c : Cache V) : Cache V :=
  { c with store := [] }

/-- The periodic `cleanup` sweep body: delete every entry strictly older
than `maxAge`. -/
def Cache.sweep {V : Type} (c : Cache V) (now : Nat) : Cache V :=
  { c with store := c.store.filter (fun e => !(now - e.2.timestamp > c.maxAge)) }

/-! ### `CircuitBreaker` (`app.js` lines 66–89) -/

/-- Errors escaping `CircuitBreaker.execute`: either the breaker's own
`CircuitOpen` error (`throw new Error("Circuit breaker open for ...")`) or
the operation's original error `e`, re-raised unchanged as `opFailed e`. -/
inductive CBError (ε : Type) where
  | circuitOpen
  | opFailed (e : ε)
  deriving DecidableEq, Repr

/-- The `CircuitBreaker` class: per-source failure timestamps plus the
cool-down window (`timeout`, default 5000 ms). -/
structure CircuitBreaker where
  failures : AList Nat
  timeout : Nat
  deriving DecidableEq, Repr

/-- The fail-fast gate of `execute`: `failure && Date.now() - failure <
this.timeout`.  A recorded timestamp of `0` is falsy in JS, hence the
`t ≠ 0` conjunct. -/
def CircuitBreaker.gateOpen (cb : CircuitBreaker) (source : String) (now : Nat) :
    Bool :=
  match alookup cb.failures source with
  | some t => t ≠ 0 && now - t < cb.timeout
  | none => false

/-- The body of `execute` once the gate has been passed: run the operation
(its outcome is the pure value `op`), clearing the failure record on success
and (re)setting it to `now` before re-raising on failure. -/
def CircuitBreaker.attempt {ε α : Type} (cb : CircuitBreaker) (source : String)
    (now : Nat) (op : Except ε α) : CircuitBreaker × Except (CBError ε) α :=
  match op with
  | .ok a => ({ cb with failures := aerase cb.failures source }, .ok a)
  | .error e =>
      ({ cb with failures := aset cb.failures source now }, .error (.opFailed e))

/-- `CircuitBreaker.execute(source, operation)` at time `now`. -/
def CircuitBreaker.execute {ε α : Type} (cb : CircuitBreaker) (source : String)
    (now : Nat) (op : Except ε α) : CircuitBreaker × Except (CBError ε) α :=
  if cb.gateOpen source now then (cb, .error .circuitOpen)
  else cb.attempt source now op

/-! ### Retry wrapper and HTTP status validation (`app.js` lines 92–101, 283–297) -/

/-- The failure taxonomy of a single feed fetch. -/
inductive FetchFailure where
  | timedOut
  | networkError
  | httpError (status : Nat)
  deriving DecidableEq, Repr

/-- An HTTP response as seen by `fetchWithRetry`. -/
structure HttpResponse (β : Type) where
  status : Nat
  data : β
  deriving DecidableEq, Repr

/-- The raw outcome of one network attempt, before axios applies
`validateStatus`. -/
inductive NetOutcome (β : Type) where
  | timeoutHit
  | netDown
  | responded (r : HttpResponse β)
  deriving DecidableEq, Repr

/-- `validateStatus` from `fetchFromSource`'s axios config:
`status >= 200 && status < 400`. -/
def validateStatus (status : Nat) : Bool :=
  decide (200 ≤ status) && decide (status < 400)

/-- One `axios.get` call under that config: a response whose status fails
`validateStatus` rejects with `HttpError(status)`. -/
def axiosGet {β : Type} (o : NetOutcome β) : Except FetchFailure (HttpResponse β) :=
  match o with
  | .timeoutHit => .error .timedOut
  | .netDown => .error .networkError
  | .responded r => if validateStatus r.status then .ok r else .error (.httpError r.status)

/-- The loop of `fetchWithRetry`, with `net i` the outcome of attempt `i`
and `fuel = retries - i` (so `fuel = 0` exactly on the last attempt, where
the error is rethrown).  Returns the number of attempts made, the list of
backoff delays slept (`1000 * (i + 1)` after failed attempt `i`), and the
final result. -/
def retryGo {β : Type} (net : Nat → NetOutcome β) (i : Nat) :
    Nat → Nat × List Nat × Except FetchFailure (HttpResponse β)
  | 0 => (i + 1, [], axiosGet (net i))
  | fuel + 1 =>
      match axiosGet (net i) with
      | .ok r => (i + 1, [], .ok r)
      | .error _ =>
          let rest := retryGo net (i + 1) fuel
          (rest.1, 1000 * (i + 1) :: rest.2.1, rest.2.2)

/-- `fetchWithRetry(url, config, retries = 2)`. -/
def fetchWithRetry {β : Type} (net : Nat → NetOutcome β) (retries : Nat) :
    Nat × List Nat × Except FetchFailure (HttpResponse β) :=
  retryGo net 0 retries

/-! ### `usedHeadlinesTracker` (`app.js` lines 104–125) -/

/-- `Set.add`: a JS `Set` keeps insertion order and ignores re-insertion of
an existing element (it does not move it).  Modelled as a duplicate-free
list with the oldest element first. -/
def setAdd (l : List String) (x : String) : List String :=
  if l.contains x then l else l ++ [x]

/-- The eviction loop of `usedHeadlinesTracker.add`: `for (let i = 0;
i < size - maxSize; i++) delete(iterator.next().value)`.  The loop
condition re-reads the live `size`, which shrinks with each delete;
deleting via the values iterator removes the oldest element, i.e. drops
the head. -/
def trimGo (maxSize : Nat) (l : List String) (i : Nat) : List String :=
  if h : i < l.length - maxSize then trimGo maxSize (l.drop 1) (i + 1) else l
termination_by l.length
decreasing_by simp only [List.length_drop]; omega

/-- The `usedHeadlinesTracker` object: an insertion-ordered set of served
headlines with `maxSize: 100`. -/
structure Tracker where
  headlines : List String
  maxSize : Nat
  deriving DecidableEq, Repr

/-- `usedHeadlinesTracker.add(headline)`. -/
def Tracker.add (tr : Tracker) (headline : String) : Tracker :=
  { tr with headlines := trimGo tr.maxSize (setAdd tr.headlines headline) 0 }

/-- `usedHeadlinesTracker.has(headline)`. -/
def Tracker.has (tr : Tracker) (headline : String) : Bool :=
  tr.headlines.contains headline

/-- `usedHeadlinesTracker.clear()`. -/
def Tracker.clear (tr : Tracker) : Tracker :=
  { tr with headlines := [] }

theorem trimGo_eq_drop_aux (maxSize : Nat) :
    ∀ n : Nat, ∀ l : List String, l.length ≤ n → ∀ i : Nat,
      ∃ k, trimGo maxSize l i = l.drop k := by
  intro n
  induction n with
  | zero =>
      intro l hl i
      rw [trimGo]
      split
      · rename_i h
        omega
      · exact ⟨0, rfl⟩
  | succ n ihn =>
      intro l hl i
      rw [trimGo]
      split
      · obtain ⟨k, hk⟩ := ihn (l.drop 1) (by simp only [List.length_drop]; omega) (i + 1)
        exact ⟨1 + k, by rw [hk, List.drop_drop]⟩
      · exact ⟨0, rfl⟩

theorem trimGo_eq_drop (maxSize : Nat) (l : List String) (i : Nat) :
    ∃ k, trimGo maxSize l i = l.drop k :=
  trimGo_eq_drop_aux maxSize l.length l le_rfl i

theorem trimGo_length_le (maxSize : Nat) (l : List String)
    (h : l.length ≤ maxSize + 1) : (trimGo maxSize l 0).length ≤ maxSize := by
  rw [trimGo]
  split
  · rw [trimGo]
    split
    · rename_i h1 h2
      simp only [List.length_drop] at h2
      omega
    · simp only [List.length_drop]
      omega
  · omega

/-! ### `NEWS_SOURCES` rotation (`app.js` lines 127–277) -/

/-- A configured news source: `{ name, methods: [{type, url, parse}],
timeout }`.  Each method's `parse` function extracts the `<item><title>`
texts of the feed; only the method URLs are retained here, the parse
outcome being supplied by the fetch oracle of the engine model. -/
structure Source where
  name : String
  methods : List String
  timeout : Nat
  deriving DecidableEq, Repr

/-- The rotation state: `NEWS_SOURCES.currentIndex`, the configured
`sources` array, and the module-level closure variable `lastUsedSource`. -/
structure Registry where
  currentIndex : Nat
  sources : List Source
  lastUsedSource : Option String
  deriving DecidableEq, Repr

/-- The index `getNextSource` reads from: when `lastUsedSource` is set, the
JS computes `findIndex` (−1 when absent) and `(lastIndex + 1) %
sources.length`; `((findIdx?.map (· + 1)).getD 0) % length` reproduces
this, `getD 0` covering the absent (−1) case. -/
def Registry.nextIdx (r : Registry) : Nat :=
  match r.lastUsedSource with
  | none => r.currentIndex
  | some n =>
      (((r.sources.findIdx? (fun s => s.name == n)).map (· + 1)).getD 0) %
        r.sources.length

/-- `NEWS_SOURCES.getNextSource()`: read the source at `nextIdx`, record it
in `currentIndex`/`lastUsedSource`, and return it.  `none` models the crash
on an out-of-range `currentIndex` (`sources[idx]` undefined). -/
def Registry.getNextSource (r : Registry) : Option (Source × Registry) :=
  match r.sources[r.nextIdx]? with
  | none => none
  | some src =>
      some (src,
        { r with currentIndex := r.nextIdx, lastUsedSource := some src.name })

/-- `NEWS_SOURCES.getCurrentSource()`. -/
def Registry.getCurrentSource (r : Registry) : Option Source :=
  r.sources[r.currentIndex]?

/-! ### Char-level models of the JavaScript string operations

Lean's library `String` functions (`trim`, `toLower`, `splitOn`, ...) are
defined by well-founded recursion and do not reduce definitionally, so the
JS string operations are modelled here by structurally recursive functions
over `List Char`. -/

/-- `String.prototype.trim()`: strip leading and trailing whitespace
(modelled as the ASCII whitespace of `Char.isWhitespace`). -/
def strTrim (s : String) : String :=
  String.mk
    (((s.toList.dropWhile Char.isWhitespace).reverse.dropWhile
        Char.isWhitespace).reverse)

/-- `String.prototype.toLowerCase()`, modelled character-wise. -/
def strLower (s : String) : String :=
  String.mk (s.toList.map Char.toLower)

/-- `String.prototype.toUpperCase()`, modelled character-wise. -/
def strUpper (s : String) : String :=
  String.mk (s.toList.map Char.toUpper)

/-- Split a character list at every occurrence of a separator char. -/
def splitOnChar (sep : Char) : List Char → List (List Char)
  | [] => [[]]
  | c :: cs =>
      if c = sep then [] :: splitOnChar sep cs
      else
        match splitOnChar sep cs with
        | [] => [[c]]
        | p :: ps => (c :: p) :: ps

/-- Split at the first `"://"` occurrence: the scheme before it and the
remainder after it, or `none` when there is no such occurrence. -/
def splitScheme : List Char → Option (List Char × List Char)
  | [] => none
  | c :: cs =>
      if c = ':' && (cs.take 2 = ['/', '/']) then some ([], cs.drop 2)
      else
        match splitScheme cs with
        | some (sch, rest) => some (c :: sch, rest)
        | none => none

/-! ### `api/news.js`: the headline normalizer -/

/-- JS truthiness of an optional string field: present and non-empty. -/
def truthyStr : Option String → Option String
  | some s => if s = "" then none else some s
  | none => none

/-- The shape of a raw feed item's `title` field: a plain string, a wrapper
object with optional `content`/`cdata` text fields, or absent. -/
inductive TitleVal where
  | vstr (s : String)
  | vobj (content cdata : Option String)
  | vnone
  deriving DecidableEq, Repr

/-- One element of an Atom-style `link` array: either a plain string or a
link object with optional `rel`/`href`/`url` fields. -/
inductive LinkElem where
  | estr (s : String)
  | eobj (rel href url : Option String)
  deriving DecidableEq, Repr

/-- The shape of a raw feed item's `link` field. -/
inductive LinkVal where
  | vstr (s : String)
  | varr (ls : List LinkElem)
  | vobj (href url : Option String)
  | vnone
  deriving DecidableEq, Repr

/-- A raw feed item as consumed by `normalizeItems`.  The `guid` field is
modelled as an optional string: either the guid itself when the feed
yields a string, or its `content` text when the feed yields a wrapper
object (the degenerate wrapper-object-with-empty-content case, where the
JS would pick up the raw object as a link, is outside this model). -/
structure RawItem where
  title : TitleVal
  link : LinkVal
  guid : Option String
  id : Option String
  deriving DecidableEq, Repr

/-- Title extraction: `typeof it?.title === 'string' ? it.title :
it?.title?.content || it?.title?.cdata || ''`. -/
def extractTitle : TitleVal → String
  | .vstr s => s
  | .vobj c d => ((truthyStr c).orElse (fun _ => truthyStr d)).getD ""
  | .vnone => ""

/-- The `find` predicate over an Atom link array:
`(l.rel ? String(l.rel).toLowerCase() === 'alternate' : true) &&
(l.href || l.url)`.  A plain-string element has no `href`/`url`, so it
never satisfies the predicate. -/
def elemRelOk : LinkElem → Bool
  | .estr _ => true
  | .eobj rel _ _ =>
      match truthyStr rel with
      | some rl => strLower rl == "alternate"
      | none => true

/-- The truthy `href` of a link-array element, if any. -/
def elemHref : LinkElem → Option String
  | .estr _ => none
  | .eobj _ href _ => truthyStr href

/-- The truthy `url` of a link-array element, if any. -/
def elemUrl : LinkElem → Option String
  | .estr _ => none
  | .eobj _ _ url => truthyStr url

/-- Link extraction from an Atom-style array:
`alt?.href || alt?.url || it.link[0]?.href || it.link[0]?.url || ''`,
then `if (!link && typeof it.link[0] === 'string') link = it.link[0]`. -/
def extractLinkArr (ls : List LinkElem) : String :=
  let alt := ls.find? (fun l => elemRelOk l && ((elemHref l).isSome || (elemUrl l).isSome))
  let cand :=
    (match alt with
     | some a => (elemHref a).orElse (fun _ => elemUrl a)
     | none => none).orElse
      (fun _ =>
        match ls.head? with
        | some f => (elemHref f).orElse (fun _ => elemUrl f)
        | none => none)
  match cand with
  | some s => s
  | none =>
      match ls.head? with
      | some (.estr s) => s
      | _ => ""

/-- Link extraction over the possible shapes of the `link` field. -/
def extractLink : LinkVal → String
  | .vstr s => s
  | .varr ls => extractLinkArr ls
  | .vobj href url => ((truthyStr href).orElse (fun _ => truthyStr url)).getD ""
  | .vnone => ""

/-- The full link of an item: the extracted link, with the guid/id fallback
`if (!link) link = it?.guid?.content || it?.guid || it?.id || ''`. -/
def rawLink (it : RawItem) : String :=
  let link := extractLink it.link
  if link = "" then ((truthyStr it.guid).orElse (fun _ => truthyStr it.id)).getD ""
  else link

/-- Case-insensitive character comparison, modelling the `i` regex flag. -/
def lowerEq (a b : Char) : Bool :=
  a.toLower == b.toLower

/-- Case-insensitive "the pattern is an initial segment of the text". -/
def matchesCI : List Char → List Char → Bool
  | [], _ => true
  | _ :: _, [] => false
  | p :: ps, c :: cs => lowerEq p c && matchesCI ps cs

/-- Outlet names of the dash-suffix regex in `sanitizeTitle`:
`/\s*[-–—]\s*(BBC News|Reuters|The Guardian|NPR|AP News|Al Jazeera).*$/i`. -/
def dashOutlets : List String :=
  ["BBC News", "Reuters", "The Guardian", "NPR", "AP News", "Al Jazeera"]

/-- Outlet names of the pipe-suffix regex in `sanitizeTitle`:
`/\s*\|\s*(BBC|Reuters|The Guardian|NPR|AP|Al Jazeera).*$/i`. -/
def pipeOutlets : List String :=
  ["BBC", "Reuters", "The Guardian", "NPR", "AP", "Al Jazeera"]

/-- Does `\s* SEP \s* OUTLET` match at the start of `cs`?  `\s` is modelled
as the ASCII whitespace recognised by `Char.isWhitespace`; since neither a
separator nor an outlet's first letter is whitespace, the greedy
`dropWhile` is exact. -/
def sepOutletAt (isSep : Char → Bool) (outlets : List String) (cs : List Char) :
    Bool :=
  match cs.dropWhile Char.isWhitespace with
  | [] => false
  | c :: rest =>
      isSep c &&
        outlets.any (fun o => matchesCI o.toList (rest.dropWhile Char.isWhitespace))

/-- `replace(regex, '')` for a `\s*SEP\s*OUTLET.*$` regex: keep the text
before the leftmost position where the pattern matches, drop the rest. -/
def stripFromMatch (isSep : Char → Bool) (outlets : List String) :
    List Char → List Char
  | [] => []
  | c :: cs =>
      if sepOutletAt isSep outlets (c :: cs) then []
      else c :: stripFromMatch isSep outlets cs

/-- The dash separators `[-–—]`. -/
def isDashSep (c : Char) : Bool :=
  c == '-' || c == '–' || c == '—'

/-- The pipe separator `\|`. -/
def isPipeSep (c : Char) : Bool :=
  c == '|'

/-- `sanitizeTitle(title)`: strip a trailing `— Outlet` suffix, then a
trailing `| Outlet` suffix, then trim. -/
def sanitizeTitle (s : String) : String :=
  strTrim (String.mk (stripFromMatch isPipeSep pipeOutlets
    (stripFromMatch isDashSep dashOutlets s.toList)))

/-- Substring test (`String.prototype.includes`). -/
def listHasInfix (pat : List Char) : List Char → Bool
  | [] => pat.isEmpty
  | c :: cs => pat.isPrefixOf (c :: cs) || listHasInfix pat cs

/-- `haystack.includes(needle)`. -/
def strIncludes (haystack needle : String) : Bool :=
  listHasInfix needle.toList haystack.toList

/-- A shallow model of `new URL(link)`: `none` models the constructor
throwing (no `scheme://` part).  Returns the host part (the authority up
to the first `/` or `?`) and the raw query string (after the first `?`,
before any `#`).  Percent-decoding of parameter values is not modelled. -/
def parseUrl (link : String) : Option (String × String) :=
  match splitScheme link.toList with
  | none => none
  | some (scheme, after) =>
      if scheme = [] then none
      else
        let nofrag := after.takeWhile (fun c => c ≠ '#')
        let host := nofrag.takeWhile (fun c => c ≠ '/' && c ≠ '?')
        let query := (nofrag.dropWhile (fun c => c ≠ '?')).drop 1
        some (String.mk host, String.mk query)

/-- `u.searchParams.get(key)`: the value of the first `key=...` pair. -/
def getQueryParam (query key : String) : Option String :=
  (splitOnChar '&' query.toList).findSome? (fun kv =>
    if String.mk (kv.takeWhile (fun c => c ≠ '=')) = key then
      some (String.mk ((kv.dropWhile (fun c => c ≠ '=')).drop 1))
    else none)

/-- `resolveGoogleNewsLink(link)`: when the link parses as a URL whose
hostname contains `news.google.` and carries a truthy `url` query
parameter, substitute that parameter; otherwise return the link
unchanged. -/
def resolveGoogleNewsLink (link : String) : String :=
  match parseUrl link with
  | none => link
  | some (host, query) =>
      if strIncludes host "news.google." then
        match getQueryParam query "url" with
        | some v => if v ≠ "" then v else link
        | none => link
      else link

/-- A normalized headline: `{ title, source, url }`. -/
structure Headline where
  title : String
  source : String
  url : String
  deriving DecidableEq, Repr

/-- The input of `normalizeItems`: either a single (possibly absent) item
(`rawItems = [rawItems].filter(Boolean)`) or an array of items. -/
inductive RawInput where
  | one (it : Option RawItem)
  | many (its : List RawItem)
  deriving DecidableEq, Repr

/-- The item list that `normalizeItems` iterates over. -/
def itemsOf : RawInput → List RawItem
  | .one none => []
  | .one (some it) => [it]
  | .many its => its

/-- The map body of `normalizeItems`: extract and sanitize the title,
extract the link with guid/id fallback, resolve aggregator redirects on a
non-empty link, and default the url to `'#'`. -/
def mkHeadline (provider : String) (it : RawItem) : Headline :=
  let title := sanitizeTitle (extractTitle it.title)
  let link := rawLink it
  let link := if link ≠ "" then resolveGoogleNewsLink link else link
  { title := title, source := provider, url := if link = "" then "#" else link }

/-- `normalizeItems(rawItems, provider)`: map then
`filter(x => x.title && x.url)`. -/
def normalizeItems (raw : RawInput) (provider : String) : List Headline :=
  ((itemsOf raw).map (mkHeadline provider)).filter
    (fun x => !(x.title == "") && !(x.url == ""))

/-! ### `api/news.js`: feeds, dedupe and the request handler -/

/-- `cleanCountry(code)`: trim, upper-case, and keep only a two-letter
A–Z code, defaulting to `"US"`. -/
def cleanCountry (code : String) : String :=
  let s := strUpper (strTrim code)
  if s.length = 2 && s.toList.all (fun c => 'A' ≤ c && c ≤ 'Z') then s else "US"

/-- The provider names of `feedsFor`, in order: Google News for the
cleaned country, then BBC, The Guardian and Al Jazeera.  The feed URLs
(and hence the category/language tables that only shape them) are not
modelled: the claims never reference them, and each feed's fetch outcome
is supplied by an oracle. -/
def feedNamesFor (country : String) : List String :=
  let c := cleanCountry country
  ["Google News " ++ c, "BBC", "The Guardian", "Al Jazeera"]

/-- The parsed payload of one feed, as dispatched by `fetchFeed`:
the fetch/parse failed, or the document has `rss.channel.item`, or
`feed.entry`, or neither. -/
inductive FeedOutcome where
  | failed
  | rssItems (raw : RawInput)
  | atomEntries (raw : RawInput)
  | noItems
  deriving Repr

/-- `fetchFeed(url, providerName)`: normalize the RSS items or Atom
entries, return `[]` for a payload with neither, propagate fetch/parse
failures. -/
def fetchFeed (o : FeedOutcome) (providerName : String) :
    Except Unit (List Headline) :=
  match o with
  | .failed => .error ()
  | .rssItems raw => .ok (normalizeItems raw providerName)
  | .atomEntries raw => .ok (normalizeItems raw providerName)
  | .noItems => .ok []

/-- The collection loop of the handler: try each feed in order; on the
first feed that succeeds with a non-empty item list, keep it and stop; on
failure or an empty list, move on.  `env k` is the outcome for the `k`-th
feed. -/
def collectFeeds (env : Nat → FeedOutcome) : List String → Nat → List Headline
  | [], _ => []
  | n :: rest, k =>
      match fetchFeed (env k) n with
      | .error _ => collectFeeds env rest (k + 1)
      | .ok items =>
          if items.length ≠ 0 then items else collectFeeds env rest (k + 1)

/-- The recursion of `dedupeByTitle`, carrying the `seen` set of
lower-cased titles. -/
def dedupeGo (seen : List String) : List Headline → List Headline
  | [] => []
  | it :: rest =>
      let key := strLower it.title
      if seen.contains key then dedupeGo seen rest
      else it :: dedupeGo (key :: seen) rest

/-- `dedupeByTitle(items)`: keep the first item of each lower-cased title. -/
def dedupeByTitle (items : List Headline) : List Headline :=
  dedupeGo [] items

/-- The hard-coded fallback response of the handler. -/
def sampleHeadlines : List Headline :=
  [⟨"Satellites watch storms gather over Atlantic", "Sample", "#"⟩,
   ⟨"Researchers map ancient city with ground radar", "Sample", "#"⟩,
   ⟨"New chip design promises battery-sipping laptops", "Sample", "#"⟩,
   ⟨"Ocean heat reaches record highs, scientists warn", "Sample", "#"⟩,
   ⟨"Breakthrough in recycling rare-earth magnets", "Sample", "#"⟩,
   ⟨"Open-source community ships major release", "Sample", "#"⟩]

/-- The GET branch of the `/api/news` handler: read the query (`category`
defaults to `'technology'`, `country` to `'US'`, both via JS truthiness),
collect from the feeds in order, dedupe by lower-cased title, keep at most
14, and fall back to the sample list when nothing was collected. -/
def newsHandler (env : Nat → FeedOutcome) (_qcategory qcountry : Option String) :
    List Headline :=
  let country := cleanCountry ((truthyStr qcountry).getD "US")
  let feeds := feedNamesFor country
  let collected := collectFeeds env feeds 0
  let collected := (dedupeByTitle collected).take 14
  if collected.length = 0 then sampleHeadlines else collected

/-! ### `fetchLithuanianNews` (`app.js` lines 417–458): the rotation engine -/

/-- The value returned by `NEWS_SOURCES.fetchFromSource`: the cleaned,
deduplicated headline titles plus the source name. -/
structure FetchResult where
  headlines : List String
  source : String
  deriving DecidableEq, Repr

/-- A served headline: `{ headline, source }`. -/
structure PickedHeadline where
  headline : String
  source : String
  deriving DecidableEq, Repr

/-- The errors arising inside one iteration of the engine loop (all of
them caught by its `try`/`catch`) plus the only error the engine itself
throws, `'Nepavyko gauti naujienų iš visų šaltinių'`. -/
inductive EngineError where
  | circuitOpen
  | fetchFailed
  | allSourcesExhausted
  deriving DecidableEq, Repr

/-- The mutable module state the engine touches: the rotation registry,
`newsCache`, `usedHeadlinesTracker` and the circuit breaker. -/
structure EngineState where
  registry : Registry
  newsCache : Cache FetchResult
  used : Tracker
  breaker : CircuitBreaker
  deriving DecidableEq, Repr

/-- The environment of one engine call: `fetchResult j` is the outcome of
the `j`-th executed `fetchFromSource`, `timeAt k` is `Date.now()` during
the `k`-th loop iteration, and `pick k` drives the `Math.random()` index
choice of that iteration (reduced modulo the candidate count). -/
structure Env where
  fetchResult : Nat → Except Unit FetchResult
  timeAt : Nat → Nat
  pick : Nat → Nat

/-- The `availableHeadlines[Math.floor(Math.random() * length)]` choice. -/
def pickFrom (r : Nat) (avail : List String) : String :=
  avail.getD (r % avail.length) ""

/-- The `try` block of one loop iteration for source `src`: first the
cache path (a hit whose unused headlines are non-empty serves one), then
`circuitBreaker.execute(source.name, fetchFromSource)` followed by the
same selection on the fresh result.  Returns the new state, the new fetch
counter, and `ok (some p)` for a served headline, `ok none` for a
successful fetch with no unused headline (the loop falls through), or the
caught error. -/
def tryBody (env : Env) (st0 : EngineState) (src : Source) (k j : Nat) :
    EngineState × Nat × Except EngineError (Option PickedHeadline) :=
  let now := env.timeAt k
  let got := st0.newsCache.get src.name now
  let st := { st0 with newsCache := got.1 }
  let fromCache : Option PickedHeadline :=
    match got.2 with
    | none => none
    | some cached =>
        match cached.headlines.filter (fun h => !st.used.has h) with
        | [] => none
        | a :: rest => some ⟨pickFrom (env.pick k) (a :: rest), cached.source⟩
  match fromCache with
  | some p => ({ st with used := st.used.add p.headline }, j, .ok (some p))
  | none =>
      if st.breaker.gateOpen src.name now then (st, j, .error .circuitOpen)
      else
        match st.breaker.attempt src.name now (env.fetchResult j) with
        | (br, .error _) => ({ st with breaker := br }, j + 1, .error .fetchFailed)
        | (br, .ok result) =>
            let st := { st with breaker := br,
                                newsCache := st.newsCache.set src.name result now }
            match result.headlines.filter (fun h => !st.used.has h) with
            | [] => (st, j + 1, .ok none)
            | a :: rest =>
                let h := pickFrom (env.pick k) (a :: rest)
                ({ st with used := st.used.add h }, j + 1, .ok (some ⟨h, result.source⟩))

/-- The `while (triedSources.size < maxAttempts)` loop of
`fetchLithuanianNews`.  `tried` is the set of source names already tried
(consed only when new, so its length is the set's size), `k` the iteration
counter, `j` the fetch counter.  Fuel makes the recursion structural;
`none` models running out of fuel (or the unreachable out-of-range index
crash in `getNextSource`), never a JS behaviour. -/
def fetchLoop (env : Env) (st : EngineState) (tried : List String) (k j : Nat) :
    Nat → Option (EngineState × Nat × Except EngineError PickedHeadline)
  | 0 => none
  | fuel + 1 =>
      if tried.length < st.registry.sources.length then
        match st.registry.getNextSource with
        | none => none
        | some (src, reg1) =>
            if tried.contains src.name then
              fetchLoop env { st with registry := reg1 } tried (k + 1) j fuel
            else
              match tryBody env { st with registry := reg1 } src k j with
              | (st2, j2, .ok (some p)) => some (st2, j2, .ok p)
              | (st2, j2, .ok none) =>
                  fetchLoop env st2 (src.name :: tried) (k + 1) j2 fuel
              | (st2, j2, .error _) =>
                  fetchLoop env st2 (src.name :: tried) (k + 1) j2 fuel
      else
        some ({ st with newsCache := st.newsCache.clear, used := st.used.clear },
              j, Except.error .allSourcesExhausted)

/-- `fetchLithuanianNews()`: run the loop from an empty tried set. -/
def fetchLithuanianNews (env : Env) (st : EngineState) (fuel : Nat) :
    Option (EngineState × Nat × Except EngineError PickedHeadline) :=
  fetchLoop env st [] 0 0 fuel

/-! ### Claims about the TTL cache (C5) -/

theorem mem_aset_keys {V : Type} (m : AList V) (k : String) (v : V) (x : String)
    (hx : x ∈ (aset m k v).map Prod.fst) : x ∈ m.map Prod.fst ∨ x = k := by
  induction m with
  | nil => simpa [aset] using hx
  | cons hd tl ih =>
      obtain ⟨k0, v0⟩ := hd
      by_cases h : k0 = k
      · simp only [aset, if_pos h, List.map_cons, List.mem_cons] at hx ⊢
        tauto
      · simp only [aset, if_neg h, List.map_cons, List.mem_cons] at hx ⊢
        rcases hx with hx | hx
        · tauto
        · rcases ih hx with h2 | h2 <;> tauto

theorem aset_keys_nodup {V : Type} (m : AList V) (k : String) (v : V)
    (h : (m.map Prod.fst).Nodup) : ((aset m k v).map Prod.fst).Nodup := by
  induction m with
  | nil => simp [aset]
  | cons hd tl ih =>
      obtain ⟨k0, v0⟩ := hd
      simp only [List.map_cons, List.nodup_cons] at h
      by_cases hk : k0 = k
      · simp only [aset, if_pos hk, List.map_cons, List.nodup_cons]
        exact ⟨h.1, h.2⟩
      · simp only [aset, if_neg hk, List.map_cons, List.nodup_cons]
        refine ⟨fun hmem => ?_, ih h.2⟩
        rcases mem_aset_keys tl k v k0 hmem with h2 | h2
        · exact h.1 h2
        · exact hk h2

/-- Claim C5, as stated, is false on the code: `Cache.get` uses the strict
test `now - timestamp > maxAge`, so an entry aged exactly `TTL` is still
returned even though `now - createdAt < TTL` fails.  Concretely: TTL 5,
entry written at 0, read at 5. -/
theorem claim_C5_counterexample :
    ((((Cache.mk ([] : AList (CacheItem Nat)) 5).set "k" 42 0).get "k" 5).2 =
        some 42)
  ∧ ¬(5 - 0 < 5) := by
  constructor
  · rfl
  · decide

/-- Claim C5 (amended): for a key/value stored at time `t` in a cache with
duplicate-free keys, a later `get` at time `now` returns the value exactly
when `now - t ≤ TTL`; when `now - t > TTL` the `get` is a miss and deletes
the entry, so a subsequent `get` also misses. -/
theorem claim_C5_cache_expiry {V : Type} (c : Cache V) (k : String) (v : V)
    (t now : Nat) (hnd : (c.store.map Prod.fst).Nodup) (hle : t ≤ now) :
    (((c.set k v t).get k now).2 = some v ↔ now - t ≤ c.maxAge)
  ∧ (c.maxAge < now - t →
      ((c.set k v t).get k now).2 = none ∧
      ((((c.set k v t).get k now).1).get k now).2 = none) := by
  have hl : alookup (c.set k v t).store k = some ⟨t, v⟩ :=
    alookup_aset_self c.store k ⟨t, v⟩
  constructor
  · constructor
    · intro hsome
      by_contra hgt
      have hma : (c.set k v t).maxAge = c.maxAge := rfl
      simp only [Cache.get, hl] at hsome
      rw [if_pos (by simp only [hma]; omega)] at hsome
      exact Option.noConfusion hsome
    · intro hle2
      have hma : (c.set k v t).maxAge = c.maxAge := rfl
      simp only [Cache.get, hl]
      rw [if_neg (by simp only [hma]; omega)]
  · intro hgt
    have hma : (c.set k v t).maxAge = c.maxAge := rfl
    have hget : (c.set k v t).get k now =
        ({ c.set k v t with store := aerase (c.set k v t).store k }, none) := by
      simp only [Cache.get, hl]
      rw [if_pos (by simp only [hma]; omega)]
    refine ⟨by rw [hget], ?_⟩
    rw [hget]
    have hnd2 : (((c.set k v t).store).map Prod.fst).Nodup :=
      aset_keys_nodup c.store k ⟨t, v⟩ hnd
    have herase : alookup (aerase (c.set k v t).store k) k = none :=
      alookup_aerase_self _ k hnd2
    simp [Cache.get, herase]

/-- Witness for `claim_C5_cache_expiry` at TTL 5, write time 0, read time 3. -/
theorem claim_C5_cache_expiry_witness :
    ((((Cache.mk ([] : AList (CacheItem Nat)) 5).set "k" 7 0).get "k" 3).2 =
      some 7) :=
  (claim_C5_cache_expiry (Cache.mk ([] : AList (CacheItem Nat)) 5) "k" 7 0 3
    (by decide) (by decide)).1.mpr (by decide)

/-! ### Claims about the circuit breaker (C2, C3) -/

/-- Claim C2: after a failure recorded at (positive) time `t` for a source
key, `execute` for that key fails immediately with `CircuitOpen` — without
consulting the operation — for every call at a time in `[t, t + coolDown)`,
and runs the operation again for any call at or after `t + coolDown`. -/
theorem claim_C2_breaker_gate {ε α : Type} (cb : CircuitBreaker) (source : String)
    (t : Nat) (ht : alookup cb.failures source = some t) (ht0 : 0 < t)
    (now : Nat) (op : Except ε α) :
    (t ≤ now → now < t + cb.timeout →
        cb.execute source now op = (cb, Except.error CBError.circuitOpen))
  ∧ (t + cb.timeout ≤ now →
        cb.execute source now op = cb.attempt source now op) := by
  have hgate : cb.gateOpen source now = (decide (t ≠ 0) && decide (now - t < cb.timeout)) := by
    simp [CircuitBreaker.gateOpen, ht]
  constructor
  · intro h1 h2
    have : cb.gateOpen source now = true := by
      rw [hgate]
      simp only [Bool.and_eq_true, decide_eq_true_eq]
      omega
    simp [CircuitBreaker.execute, this]
  · intro h1
    have : cb.gateOpen source now = false := by
      rw [hgate]
      simp only [Bool.and_eq_false_iff, decide_eq_false_iff_not]
      right
      omega
    simp [CircuitBreaker.execute, this]

/-- Witness for `claim_C2_breaker_gate`: failure at time 5, cool-down 10,
call at time 7 fails fast. -/
theorem claim_C2_breaker_gate_witness :
    (CircuitBreaker.mk [("a", 5)] 10).execute "a" 7
        (Except.ok (1 : Nat) : Except Unit Nat) =
      (CircuitBreaker.mk [("a", 5)] 10, Except.error CBError.circuitOpen) :=
  (claim_C2_breaker_gate (CircuitBreaker.mk [("a", 5)] 10) "a" 5 (by decide)
    (by decide) 7 (Except.ok 1)).1 (by decide) (by decide)

/-- Claim C3: whenever `execute` actually runs the operation (the gate is
closed), a success removes the source's failure record and returns the
operation's result, while a failure sets the failure record to the current
time and re-raises the original error. -/
theorem claim_C3_breaker_attempt {ε α : Type} (cb : CircuitBreaker)
    (source : String) (now : Nat) (op : Except ε α)
    (hgate : cb.gateOpen source now = false) :
    (∀ a, op = Except.ok a →
        cb.execute source now op =
          ({ cb with failures := aerase cb.failures source }, Except.ok a))
  ∧ (∀ e, op = Except.error e →
        cb.execute source now op =
          ({ cb with failures := aset cb.failures source now },
           Except.error (CBError.opFailed e))) := by
  constructor
  · intro a ha
    subst ha
    simp [CircuitBreaker.execute, hgate, CircuitBreaker.attempt]
  · intro e he
    subst he
    simp [CircuitBreaker.execute, hgate, CircuitBreaker.attempt]

/-- Witness for `claim_C3_breaker_attempt`: a successful operation clears
the failure record for `"a"` (recorded at the falsy timestamp 0 the gate
ignores) and returns the result. -/
theorem claim_C3_breaker_attempt_witness :
    (CircuitBreaker.mk [("a", 0)] 10).execute "a" 7
        (Except.ok (5 : Nat) : Except Unit Nat) =
      (CircuitBreaker.mk [] 10, Except.ok 5) :=
  (claim_C3_breaker_attempt (CircuitBreaker.mk [("a", 0)] 10) "a" 7
    (Except.ok 5) (by decide)).1 5 rfl

/-! ### Claims about the retry wrapper (C4) -/

/-- A network oracle whose first attempt yields an HTTP 404 response and
whose later attempts succeed with HTTP 200. -/
def netFourOhFour : Nat → NetOutcome Unit :=
  fun i => if i = 0 then .responded ⟨404, ()⟩ else .responded ⟨200, ()⟩

/-- Claim C4, as stated, is false on the code: `fetchWithRetry` retries
after every error with no discrimination by kind, so after a first attempt
failing with `HttpError 404` (a 4xx rejected by `validateStatus`) it still
makes a second attempt: here the attempt count is 2 and the call even
succeeds on the retried attempt. -/
theorem claim_C4_counterexample :
    axiosGet (netFourOhFour 0) = Except.error (FetchFailure.httpError 404)
  ∧ (fetchWithRetry netFourOhFour 2).1 = 2
  ∧ (fetchWithRetry netFourOhFour 2).2.2 =
      Except.ok ⟨200, ()⟩ := by
  refine ⟨rfl, rfl, rfl⟩

theorem retryGo_spec {β : Type} (net : Nat → NetOutcome β) :
    ∀ fuel i : Nat,
      (i < (retryGo net i fuel).1 ∧ (retryGo net i fuel).1 ≤ i + fuel + 1)
    ∧ (retryGo net i fuel).2.1 =
        (List.range' (i + 1) ((retryGo net i fuel).1 - 1 - i)).map
          (fun j => 1000 * j)
    ∧ (∀ j, i ≤ j → j + 1 < (retryGo net i fuel).1 →
          ∃ e, axiosGet (net j) = Except.error e)
    ∧ (∀ j e, i ≤ j → j < i + fuel → j < (retryGo net i fuel).1 →
          axiosGet (net j) = Except.error e → j + 1 < (retryGo net i fuel).1)
    ∧ (∀ e, (retryGo net i fuel).2.2 = Except.error e →
          (retryGo net i fuel).1 = i + fuel + 1 ∧
          axiosGet (net (i + fuel)) = Except.error e) := by
  intro fuel
  induction fuel with
  | zero =>
      intro i
      simp only [retryGo]
      refine ⟨⟨by omega, by omega⟩, by simp, ?_, ?_, ?_⟩
      · intro j hij hj
        omega
      · intro j e hij hj _ _
        omega
      · intro e he
        exact ⟨by trivial, by simpa using he⟩
  | succ fuel ih =>
      intro i
      cases hax : axiosGet (net i) with
      | ok r =>
          simp only [retryGo, hax]
          refine ⟨⟨by omega, by omega⟩, by simp, ?_, ?_, ?_⟩
          · intro j hij hj
            omega
          · intro j e hij _ hjn haxj
            have : j = i := by omega
            subst this
            rw [hax] at haxj
            exact Except.noConfusion haxj
          · intro e he
            exact Except.noConfusion he
      | error e0 =>
          obtain ⟨⟨h1, h2⟩, hds, hfail, hretry, herr⟩ := ih (i + 1)
          simp only [retryGo, hax]
          refine ⟨⟨by omega, by omega⟩, ?_, ?_, ?_, ?_⟩
          · have hsplit : (retryGo net (i + 1) fuel).1 - 1 - i =
                ((retryGo net (i + 1) fuel).1 - 1 - (i + 1)) + 1 := by omega
            rw [hsplit, List.range'_succ, List.map_cons, hds]
          · intro j hij hj
            rcases Nat.eq_or_lt_of_le hij with hji | hji
            · exact ⟨e0, hji ▸ hax⟩
            · exact hfail j hji hj
          · intro j e hij hlt hjn haxj
            by_cases hji : j = i
            · subst hji
              exact h1
            · exact hretry j e (by omega) (by omega) hjn haxj
          · intro e he
            obtain ⟨hn, hl⟩ := herr e he
            refine ⟨by omega, ?_⟩
            rw [show i + (fuel + 1) = i + 1 + fuel by omega]
            exact hl

/-- Claim C4 (amended): the bounded-retry wrapper retries after every
failed attempt regardless of the error's kind — including `HttpError` with
a 4xx status — making at most `retries + 1` attempts with linear backoff
(`1000 * (i + 1)` ms after failed attempt `i`), and when every attempt
fails it propagates the error of the last attempt. -/
theorem claim_C4_retry_bounded {β : Type} (net : Nat → NetOutcome β)
    (retries : Nat) :
    (fetchWithRetry net retries).1 ≤ retries + 1
  ∧ (fetchWithRetry net retries).2.1 =
      (List.range' 1 ((fetchWithRetry net retries).1 - 1)).map
        (fun j => 1000 * j)
  ∧ (∀ j, j + 1 < (fetchWithRetry net retries).1 →
        ∃ e, axiosGet (net j) = Except.error e)
  ∧ (∀ j e, j < retries → j < (fetchWithRetry net retries).1 →
        axiosGet (net j) = Except.error e →
        j + 1 < (fetchWithRetry net retries).1)
  ∧ (∀ e, (fetchWithRetry net retries).2.2 = Except.error e →
        (fetchWithRetry net retries).1 = retries + 1 ∧
        axiosGet (net retries) = Except.error e) := by
  obtain ⟨⟨h1, h2⟩, hds, hfail, hretry, herr⟩ := retryGo_spec net retries 0
  refine ⟨by simpa [fetchWithRetry] using h2, ?_, ?_, ?_, ?_⟩
  · simpa [fetchWithRetry] using hds
  · intro j hj
    exact hfail j (Nat.zero_le j) hj
  · intro j e hj hjn haxj
    exact hretry j e (Nat.zero_le j) (by omega) hjn haxj
  · intro e he
    simpa [fetchWithRetry] using herr e he

/-- Witness for `claim_C4_retry_bounded`: with the 404-then-200 oracle and
`retries = 2`, attempt 0 failed (there is an error) because attempt 1 was
made. -/
theorem claim_C4_retry_bounded_witness :
    ∃ e, axiosGet (netFourOhFour 0) = Except.error e :=
  (claim_C4_retry_bounded netFourOhFour 2).2.2.1 0 (by decide)

/-! ### Claim about the used-headline tracker (C9) -/

/-- Claim C9: starting from a tracker within its cap of 100, every `add`
leaves the size at most 100, and whatever is evicted is an initial (i.e.
oldest, in insertion order) segment of the set as it stood right after the
insertion. -/
theorem claim_C9_tracker_cap (tr : Tracker) (x : String)
    (hcap : tr.maxSize = 100) (hlen : tr.headlines.length ≤ 100) :
    (tr.add x).headlines.length ≤ 100
  ∧ ∃ k, (tr.add x).headlines = (setAdd tr.headlines x).drop k := by
  constructor
  · have hsa : (setAdd tr.headlines x).length ≤ 101 := by
      unfold setAdd
      split
      · omega
      · simp only [List.length_append, List.length_cons, List.length_nil]
        omega
    have := trimGo_length_le tr.maxSize (setAdd tr.headlines x) (by omega)
    simpa [Tracker.add, hcap] using (hcap ▸ this)
  · exact trimGo_eq_drop tr.maxSize (setAdd tr.headlines x) 0

/-- Witness for `claim_C9_tracker_cap`: adding to a one-element tracker. -/
theorem claim_C9_tracker_cap_witness :
    ((Tracker.mk ["a"] 100).add "b").headlines.length ≤ 100
  ∧ ∃ k, ((Tracker.mk ["a"] 100).add "b").headlines =
      (setAdd ["a"] "b").drop k :=
  claim_C9_tracker_cap (Tracker.mk ["a"] 100) "b" rfl (by decide)

/-! ### Claim about the source rotation (C6) -/

theorem getNextSource_some_elim (r : Registry) (s : Source) (r1 : Registry)
    (h : r.getNextSource = some (s, r1)) :
    r.sources[r.nextIdx]? = some s ∧
    r1 = { r with currentIndex := r.nextIdx, lastUsedSource := some s.name } := by
  unfold Registry.getNextSource at h
  cases heq : r.sources[r.nextIdx]? with
  | none =>
      rw [heq] at h
      exact Option.noConfusion h
  | some src =>
      rw [heq] at h
      simp only [Option.some.injEq, Prod.mk.injEq] at h
      obtain ⟨hs, hr⟩ := h
      subst hs
      exact ⟨rfl, hr.symm⟩

theorem findIdx?_name_self (l : List Source) (i : Nat) (s : Source)
    (hnd : (l.map Source.name).Nodup) (hs : l[i]? = some s) :
    l.findIdx? (fun x => x.name == s.name) = some i := by
  obtain ⟨hi, hgi⟩ := List.getElem?_eq_some.mp hs
  have hex : ∃ x ∈ l, (fun x => x.name == s.name) x = true :=
    ⟨s, by rw [← hgi]; exact List.getElem_mem hi, by simp⟩
  have h1 := List.findIdx?_eq_some_of_exists hex
  obtain ⟨hjlt, hpj, _⟩ := List.findIdx?_eq_some_iff_getElem.mp h1
  have e1 : (l.map Source.name)[l.findIdx (fun x => x.name == s.name)]? =
      some s.name := by
    rw [List.getElem?_map, List.getElem?_eq_getElem hjlt]
    simpa using hpj
  have e2 : (l.map Source.name)[i]? = some s.name := by
    rw [List.getElem?_map, hs]
    rfl
  have hj : l.findIdx (fun x => x.name == s.name) = i :=
    List.getElem?_inj (by simpa using hjlt) hnd (e1.trans e2.symm)
  rw [h1, hj]

/-- Claim C6: on a registry of distinctly-named sources, two consecutive
`getNextSource()` calls never return the same source when there is more
than one source; with exactly one source (and the initial in-range index
0) every call returns that source and re-establishes the same state shape,
so all later calls do too. -/
theorem claim_C6_rotation (r : Registry) :
    ((r.sources.map Source.name).Nodup → 1 < r.sources.length →
      ∀ s1 r1 s2 r2, r.getNextSource = some (s1, r1) →
        r1.getNextSource = some (s2, r2) → s1 ≠ s2)
  ∧ (∀ s, r.sources = [s] → r.currentIndex = 0 →
      ∃ r1, r.getNextSource = some (s, r1) ∧
        r1.sources = [s] ∧ r1.currentIndex = 0) := by
  constructor
  · intro hnd hlen s1 r1 s2 r2 h1 h2
    obtain ⟨hg1, hr1⟩ := getNextSource_some_elim r s1 r1 h1
    subst hr1
    obtain ⟨hg2, _⟩ := getNextSource_some_elim _ s2 r2 h2
    have hfi : r.sources.findIdx? (fun x => x.name == s1.name) = some r.nextIdx :=
      findIdx?_name_self r.sources r.nextIdx s1 hnd hg1
    have hidx2 :
        ({ r with currentIndex := r.nextIdx,
                  lastUsedSource := some s1.name } : Registry).nextIdx =
          (r.nextIdx + 1) % r.sources.length := by
      simp [Registry.nextIdx, hfi]
    have hg2' : r.sources[(r.nextIdx + 1) % r.sources.length]? = some s2 := by
      rw [← hidx2]
      exact hg2
    have hne : (r.nextIdx + 1) % r.sources.length ≠ r.nextIdx := by
      have hi1 : r.nextIdx < r.sources.length := (List.getElem?_eq_some.mp hg1).1
      rcases Nat.lt_or_ge (r.nextIdx + 1) r.sources.length with hlt | hge
      · rw [Nat.mod_eq_of_lt hlt]
        omega
      · have hEq : r.nextIdx + 1 = r.sources.length := by omega
        rw [hEq, Nat.mod_self]
        omega
    intro heqs
    apply hne
    apply List.getElem?_inj
      (by simpa using (List.getElem?_eq_some.mp hg2').1) hnd
    rw [List.getElem?_map, List.getElem?_map, hg1, hg2', heqs]
  · intro s hs hci
    have hidx0 : r.nextIdx = 0 := by
      unfold Registry.nextIdx
      cases hl : r.lastUsedSource with
      | none => simpa using hci
      | some n => simp [hs, Nat.mod_one]
    refine ⟨{ r with currentIndex := 0, lastUsedSource := some s.name }, ?_,
      by simp [hs], rfl⟩
    unfold Registry.getNextSource
    rw [hidx0, hs]
    rfl

/-- Witness for `claim_C6_rotation`: a two-source registry returns source
`"A"` then source `"B"`. -/
theorem claim_C6_rotation_witness :
    (⟨"A", [], 5000⟩ : Source) ≠ (⟨"B", [], 5000⟩ : Source) :=
  (claim_C6_rotation ⟨0, [⟨"A", [], 5000⟩, ⟨"B", [], 5000⟩], none⟩).1
    (by decide) (by decide)
    ⟨"A", [], 5000⟩ ⟨0, [⟨"A", [], 5000⟩, ⟨"B", [], 5000⟩], some "A"⟩
    ⟨"B", [], 5000⟩ ⟨1, [⟨"A", [], 5000⟩, ⟨"B", [], 5000⟩], some "B"⟩
    (by decide) (by decide)

/-! ### Claim about the normalizer (C7) -/

theorem resolveGoogleNewsLink_ne_empty (link : String) (h : link ≠ "") :
    resolveGoogleNewsLink link ≠ "" := by
  unfold resolveGoogleNewsLink
  cases parseUrl link with
  | none => exact h
  | some hq =>
      obtain ⟨host, query⟩ := hq
      by_cases hh : strIncludes host "news.google." = true
      · simp only [hh, if_true]
        cases hv : getQueryParam query "url" with
        | none => exact h
        | some v =>
            by_cases hv0 : v = ""
            · simp [hv0, h]
            · simp [hv0]
      · simp [hh, h]

/-- Claim C7: every headline produced by `normalizeItems` has a non-empty
title and a non-empty url, the url being either the placeholder `"#"` or
the item's extracted link after aggregator-redirect resolution; items whose
cleaned title (or link-and-fallback chain, yielding the non-empty
placeholder) is empty never survive the final filter. -/
theorem claim_C7_normalize (raw : RawInput) (provider : String) (h : Headline)
    (hmem : h ∈ normalizeItems raw provider) :
    h.title ≠ "" ∧ h.url ≠ "" ∧
    (h.url = "#" ∨ ∃ it ∈ itemsOf raw, rawLink it ≠ "" ∧
        h.url = resolveGoogleNewsLink (rawLink it)) := by
  unfold normalizeItems at hmem
  rw [List.mem_filter] at hmem
  obtain ⟨hmap, hpred⟩ := hmem
  simp only [Bool.and_eq_true, Bool.not_eq_true', beq_eq_false_iff_ne] at hpred
  refine ⟨hpred.1, hpred.2, ?_⟩
  rw [List.mem_map] at hmap
  obtain ⟨it, hit, hmk⟩ := hmap
  subst hmk
  by_cases hl : rawLink it = ""
  · left
    simp [mkHeadline, hl]
  · right
    refine ⟨it, hit, hl, ?_⟩
    have hr := resolveGoogleNewsLink_ne_empty (rawLink it) hl
    simp [mkHeadline, hl, hr]

/-- Witness for `claim_C7_normalize` on a one-item RSS input. -/
theorem claim_C7_normalize_witness :
    (⟨"Hello world news", "BBC", "https://example.com/a"⟩ : Headline).title ≠ ""
  ∧ (⟨"Hello world news", "BBC", "https://example.com/a"⟩ : Headline).url ≠ ""
  ∧ ((⟨"Hello world news", "BBC", "https://example.com/a"⟩ : Headline).url = "#"
      ∨ ∃ it ∈ itemsOf (RawInput.many
          [⟨.vstr "Hello world news", .vstr "https://example.com/a", none, none⟩]),
          rawLink it ≠ "" ∧
          (⟨"Hello world news", "BBC", "https://example.com/a"⟩ : Headline).url =
            resolveGoogleNewsLink (rawLink it)) :=
  claim_C7_normalize
    (RawInput.many
      [⟨.vstr "Hello world news", .vstr "https://example.com/a", none, none⟩])
    "BBC" ⟨"Hello world news", "BBC", "https://example.com/a"⟩ (by decide)

/-! ### Claim about the `/api/news` handler (C10) -/

theorem mem_dedupeGo_not_seen (h : Headline) :
    ∀ (items : List Headline) (seen : List String),
      h ∈ dedupeGo seen items → strLower h.title ∉ seen := by
  intro items
  induction items with
  | nil =>
      intro seen hmem
      simp [dedupeGo] at hmem
  | cons it rest ih =>
      intro seen hmem
      by_cases hc : seen.contains (strLower it.title)
      · simp only [dedupeGo, if_pos hc] at hmem
        exact ih seen hmem
      · simp only [dedupeGo, if_neg hc] at hmem
        rcases List.mem_cons.mp hmem with hh | hh
        · subst hh
          simpa using hc
        · have := ih (strLower it.title :: seen) hh
          intro hmem2
          exact this (List.mem_cons_of_mem _ hmem2)

theorem dedupeGo_pairwise :
    ∀ (items : List Headline) (seen : List String),
      (dedupeGo seen items).Pairwise
        (fun a b => strLower a.title ≠ strLower b.title) := by
  intro items
  induction items with
  | nil => intro seen; simp [dedupeGo]
  | cons it rest ih =>
      intro seen
      by_cases hc : seen.contains (strLower it.title)
      · simpa only [dedupeGo, if_pos hc] using ih seen
      · simp only [dedupeGo, if_neg hc]
        refine List.Pairwise.cons ?_ (ih _)
        intro b hb hEq
        have := mem_dedupeGo_not_seen b rest (strLower it.title :: seen) hb
        exact this (by rw [← hEq]; exact List.mem_cons_self _ _)

/-- Claim C10: for every GET request the handler yields a response — never
an error — whose headline list is non-empty, holds at most 14 entries
(the six-entry sample list included), is pairwise distinct under
case-insensitive title comparison, and equals the hard-coded sample list
exactly when every feed failed or normalized to nothing. -/
theorem claim_C10_news_handler (env : Nat → FeedOutcome)
    (qcat qcountry : Option String) :
    newsHandler env qcat qcountry ≠ []
  ∧ (newsHandler env qcat qcountry).length ≤ 14
  ∧ (newsHandler env qcat qcountry).Pairwise
      (fun a b => strLower a.title ≠ strLower b.title)
  ∧ (collectFeeds env
        (feedNamesFor (cleanCountry ((truthyStr qcountry).getD "US"))) 0 = [] →
      newsHandler env qcat qcountry = sampleHeadlines) := by
  unfold newsHandler
  set c := collectFeeds env
    (feedNamesFor (cleanCountry ((truthyStr qcountry).getD "US"))) 0 with hc
  by_cases h0 : ((dedupeByTitle c).take 14).length = 0
  · rw [if_pos h0]
    refine ⟨by decide, by decide, by decide, fun _ => rfl⟩
  · rw [if_neg h0]
    refine ⟨?_, ?_, ?_, ?_⟩
    · intro hnil
      rw [hnil] at h0
      exact h0 rfl
    · simpa using List.length_take_le 14 (dedupeByTitle c)
    · exact List.Pairwise.sublist (List.take_sublist 14 (dedupeByTitle c))
        (dedupeGo_pairwise c [])
    · intro hce
      rw [hce] at h0
      exact absurd rfl h0

/-- Witness for `claim_C10_news_handler`: with every feed failing, the
handler answers the sample list. -/
theorem claim_C10_news_handler_witness :
    newsHandler (fun _ => FeedOutcome.failed) none none = sampleHeadlines :=
  (claim_C10_news_handler (fun _ => FeedOutcome.failed) none none).2.2.2
    (by decide)

/-! ### Claims about the rotation engine (C1, C8) -/

theorem fetchLoop_error_inv (env : Env) :
    ∀ (fuel : Nat) (st : EngineState) (tried : List String) (k j : Nat)
      (st2 : EngineState) (j2 : Nat) (e : EngineError),
      fetchLoop env st tried k j fuel = some (st2, j2, Except.error e) →
      e = EngineError.allSourcesExhausted ∧
      st2.newsCache.store = [] ∧ st2.used.headlines = [] := by
  intro fuel
  induction fuel with
  | zero =>
      intro st tried k j st2 j2 e h
      simp [fetchLoop] at h
  | succ fuel ih =>
      intro st tried k j st2 j2 e h
      rw [fetchLoop] at h
      split at h
      · split at h
        · exact Option.noConfusion h
        · split at h
          · exact ih _ _ _ _ _ _ _ h
          · split at h
            · simp only [Option.some.injEq, Prod.mk.injEq] at h
              obtain ⟨_, _, he⟩ := h
              exact Except.noConfusion he
            · exact ih _ _ _ _ _ _ _ h
            · exact ih _ _ _ _ _ _ _ h
      · simp only [Option.some.injEq, Prod.mk.injEq] at h
        obtain ⟨hst, hj, he⟩ := h
        have he2 : EngineError.allSourcesExhausted = e := by
          injection he
        refine ⟨he2.symm, ?_, ?_⟩
        · rw [← hst]
          rfl
        · rw [← hst]
          rfl

/-- Claim C1: once every registered source has been tried without yielding
an unused headline (the loop guard `triedSources.size < maxAttempts`
fails), the engine clears `newsCache` and `usedHeadlinesTracker` entirely
and fails with `AllSourcesExhausted`; conversely, whenever a run surfaces
an error at all, that error is `AllSourcesExhausted` — the per-source
circuit-open and fetch errors are all caught inside the loop — and the
returned state has an empty news cache and used-headline set. -/
theorem claim_C1_exhaustion_reset (env : Env) :
    (∀ (fuel : Nat) (st : EngineState) (tried : List String) (k j : Nat),
      st.registry.sources.length ≤ tried.length →
      fetchLoop env st tried k j (fuel + 1) =
        some ({ st with newsCache := st.newsCache.clear,
                        used := st.used.clear },
              j, Except.error EngineError.allSourcesExhausted))
  ∧ (∀ (fuel : Nat) (st : EngineState) (tried : List String) (k j : Nat)
      (st2 : EngineState) (j2 : Nat) (e : EngineError),
      fetchLoop env st tried k j fuel = some (st2, j2, Except.error e) →
      e = EngineError.allSourcesExhausted ∧
      st2.newsCache.store = [] ∧ st2.used.headlines = []) := by
  constructor
  · intro fuel st tried k j hall
    rw [fetchLoop]
    rw [if_neg (by omega)]
  · exact fetchLoop_error_inv env

/-- Witness for `claim_C1_exhaustion_reset`: a single-source engine whose
fetch fails runs to exhaustion with both stores cleared. -/
theorem claim_C1_exhaustion_reset_witness :
    EngineError.allSourcesExhausted = EngineError.allSourcesExhausted
  ∧ (⟨⟨0, [⟨"A", [], 5000⟩], some "A"⟩, ⟨[], 300000⟩, ⟨[], 100⟩,
      ⟨[("A", 0)], 5000⟩⟩ : EngineState).newsCache.store = []
  ∧ (⟨⟨0, [⟨"A", [], 5000⟩], some "A"⟩, ⟨[], 300000⟩, ⟨[], 100⟩,
      ⟨[("A", 0)], 5000⟩⟩ : EngineState).used.headlines = [] :=
  (claim_C1_exhaustion_reset
    ⟨fun _ => Except.error (), fun _ => 0, fun _ => 0⟩).2 2
    ⟨⟨0, [⟨"A", [], 5000⟩], none⟩, ⟨[], 300000⟩, ⟨[], 100⟩, ⟨[], 5000⟩⟩
    [] 0 0
    ⟨⟨0, [⟨"A", [], 5000⟩], some "A"⟩, ⟨[], 300000⟩, ⟨[], 100⟩,
      ⟨[("A", 0)], 5000⟩⟩
    1 EngineError.allSourcesExhausted rfl

/-- Claim C8: for a registry with exactly one source, starting from a
fresh engine state, when every fetch fails a single `fetchLithuanianNews`
call terminates after exactly one fetch attempt of that source, failing
with `AllSourcesExhausted` — for any fuel of at least 2, so there is no
unbounded retry loop inside the call. -/
theorem claim_C8_single_source (env : Env) (s : Source) (st : EngineState)
    (hfail : ∀ j, env.fetchResult j = Except.error ())
    (hs : st.registry.sources = [s])
    (hidx : st.registry.currentIndex = 0)
    (hlast : st.registry.lastUsedSource = none)
    (hcache : st.newsCache.store = [])
    (hbr : st.breaker.failures = []) :
    ∀ fuel, 2 ≤ fuel →
      ∃ st2, fetchLoop env st [] 0 0 fuel =
        some (st2, 1, Except.error EngineError.allSourcesExhausted) := by
  obtain ⟨⟨ci, srcs, lus⟩, ⟨cstore, cage⟩, ⟨uh, um⟩, ⟨bf, bt⟩⟩ := st
  simp only at hs hidx hlast hcache hbr
  subst hs hidx hlast hcache hbr
  intro fuel hfuel
  obtain ⟨n, rfl⟩ : ∃ n, fuel = n + 2 := ⟨fuel - 2, by omega⟩
  refine ⟨⟨⟨0, [s], some s.name⟩, ⟨[], cage⟩, ⟨[], um⟩,
    ⟨[(s.name, env.timeAt 0)], bt⟩⟩, ?_⟩
  rw [fetchLoop]
  rw [if_pos (by simp)]
  have hns : (⟨0, [s], none⟩ : Registry).getNextSource =
      some (s, ⟨0, [s], some s.name⟩) := by
    simp [Registry.getNextSource, Registry.nextIdx]
  rw [hns]
  dsimp only
  rw [if_neg (by simp)]
  have htb : tryBody env
      ⟨⟨0, [s], some s.name⟩, ⟨[], cage⟩, ⟨uh, um⟩, ⟨[], bt⟩⟩ s 0 0 =
      (⟨⟨0, [s], some s.name⟩, ⟨[], cage⟩, ⟨uh, um⟩,
        ⟨[(s.name, env.timeAt 0)], bt⟩⟩, 1,
       Except.error EngineError.fetchFailed) := by
    simp [tryBody, Cache.get, alookup, CircuitBreaker.gateOpen,
      CircuitBreaker.attempt, hfail 0, aset]
  rw [htb]
  dsimp only
  rw [fetchLoop]
  rw [if_neg (by simp)]
  rfl

/-- Witness for `claim_C8_single_source` at a concrete single-source
engine whose fetches always fail. -/
theorem claim_C8_single_source_witness :
    ∃ st2, fetchLoop ⟨fun _ => Except.error (), fun _ => 0, fun _ => 0⟩
        ⟨⟨0, [⟨"A", [], 5000⟩], none⟩, ⟨[], 300000⟩, ⟨[], 100⟩, ⟨[], 5000⟩⟩
        [] 0 0 2 =
      some (st2, 1, Except.error EngineError.allSourcesExhausted) :=
  claim_C8_single_source ⟨fun _ => Except.error (), fun _ => 0, fun _ => 0⟩
    ⟨"A", [], 5000⟩
    ⟨⟨0, [⟨"A", [], 5000⟩], none⟩, ⟨[], 300000⟩, ⟨[], 100⟩, ⟨[], 5000⟩⟩
    (fun _ => rfl) rfl rfl rfl rfl rfl 2 (by omega)
